import Mathlib

/-!
Verification of the squirrel YDB query-building core (`squirrel.go`).

The Go source is shallowly embedded:

* `YValue` models `types.Value` of the ydb-go-sdk — the tagged union of typed
  parameter values.  Numeric payloads are `Int`/`Nat` (Go's widening
  conversions `int64(t)`/`uint64(t)` are value-preserving, so they are
  identities on payloads); float payloads are carried as their bit patterns,
  which the codec never inspects.
* `Arg` models a Go `interface{}` argument: one constructor per concrete type
  that `castArgToYQL` dispatches on, plus `other` for any unrecognised dynamic
  type (carrying the `%T` type name used in error messages).
* Fallible Go functions returning `(x, error)` become `Res`-valued functions;
  `castArgToYQL` additionally may dereference a nil pointer (`tt := int64(*t)`
  with `t = nil`), which in Go is an uncatchable runtime panic — the result
  type `CastResult` has a dedicated `nilDerefFault` outcome for that.
-/

namespace Squirrel

/-- The single-quote character, written by `DebugSqlizer` around interpolated
arguments (`fmt.Fprintf(buf, "'%v'", args[i])`). -/
def squote : Char := Char.ofNat 39

/-- The question-mark character, the default placeholder and the character the
escape sequence `??` is hardcoded to in `DebugSqlizer`. -/
def qmark : Char := Char.ofNat 63

/-- Model of `types.Value` (ydb-go-sdk): the typed parameter values produced by
the codec.  One constructor per SDK constructor used in `castArgToYQL`. -/
inductive YValue : Type
  | boolValue (b : Bool)
  | nullableBool (b : Option Bool)
  | int8Value (n : Int)
  | nullableInt8 (n : Option Int)
  | int16Value (n : Int)
  | nullableInt16 (n : Option Int)
  | int32Value (n : Int)
  | nullableInt32 (n : Option Int)
  | int64Value (n : Int)
  | nullableInt64 (n : Option Int)
  | uint8Value (n : Nat)
  | nullableUint8 (n : Option Nat)
  | uint16Value (n : Nat)
  | nullableUint16 (n : Option Nat)
  | uint32Value (n : Nat)
  | nullableUint32 (n : Option Nat)
  | uint64Value (n : Nat)
  | nullableUint64 (n : Option Nat)
  | floatValue (bits : Nat)
  | nullableFloat (bits : Option Nat)
  | doubleValue (bits : Nat)
  | nullableDouble (bits : Option Nat)
  | textValue (s : String)
  | nullableText (s : Option String)
  | bytesValue (bs : List Nat)
  | timestampValue (t : Nat)
  | nullableTimestamp (t : Option Nat)
  | jsonValue (bs : List Nat)
  | nullableJson (bs : Option (List Nat))
  deriving DecidableEq

/-- Model of `Type().Yql()` of the ydb-go-sdk: the YQL type text of a value,
used in the `DECLARE` lines of `prepareYQLString`.  (External collaborator,
modelled at its interface boundary.) -/
def YValue.typeYql : YValue → String
  | .boolValue _ => "Bool"
  | .nullableBool _ => "Optional<Bool>"
  | .int8Value _ => "Int8"
  | .nullableInt8 _ => "Optional<Int8>"
  | .int16Value _ => "Int16"
  | .nullableInt16 _ => "Optional<Int16>"
  | .int32Value _ => "Int32"
  | .nullableInt32 _ => "Optional<Int32>"
  | .int64Value _ => "Int64"
  | .nullableInt64 _ => "Optional<Int64>"
  | .uint8Value _ => "Uint8"
  | .nullableUint8 _ => "Optional<Uint8>"
  | .uint16Value _ => "Uint16"
  | .nullableUint16 _ => "Optional<Uint16>"
  | .uint32Value _ => "Uint32"
  | .nullableUint32 _ => "Optional<Uint32>"
  | .uint64Value _ => "Uint64"
  | .nullableUint64 _ => "Optional<Uint64>"
  | .floatValue _ => "Float"
  | .nullableFloat _ => "Optional<Float>"
  | .doubleValue _ => "Double"
  | .nullableDouble _ => "Optional<Double>"
  | .textValue _ => "Utf8"
  | .nullableText _ => "Optional<Utf8>"
  | .bytesValue _ => "String"
  | .timestampValue _ => "Timestamp"
  | .nullableTimestamp _ => "Optional<Timestamp>"
  | .jsonValue _ => "Json"
  | .nullableJson _ => "Optional<Json>"

/-- Model of a Go `interface{}` argument value: one constructor per concrete
dynamic type the codec's type switch dispatches on.  `value` is an argument
that is already a `types.Value`; `other` is any other dynamic type, carrying
its `%T` name.  Pointer types carry `Option` payloads (`none` = typed nil). -/
inductive Arg : Type
  | value (v : YValue)
  | boolArg (b : Bool)
  | ptrBool (b : Option Bool)
  | intArg (n : Int)
  | ptrInt (n : Option Int)
  | int8Arg (n : Int)
  | ptrInt8 (n : Option Int)
  | int16Arg (n : Int)
  | ptrInt16 (n : Option Int)
  | int32Arg (n : Int)
  | ptrInt32 (n : Option Int)
  | int64Arg (n : Int)
  | ptrInt64 (n : Option Int)
  | uintArg (n : Nat)
  | ptrUint (n : Option Nat)
  | uint8Arg (n : Nat)
  | ptrUint8 (n : Option Nat)
  | uint16Arg (n : Nat)
  | ptrUint16 (n : Option Nat)
  | uint32Arg (n : Nat)
  | ptrUint32 (n : Option Nat)
  | uint64Arg (n : Nat)
  | ptrUint64 (n : Option Nat)
  | float32Arg (bits : Nat)
  | ptrFloat32 (bits : Option Nat)
  | float64Arg (bits : Nat)
  | ptrFloat64 (bits : Option Nat)
  | stringArg (s : String)
  | ptrString (s : Option String)
  | bytesArg (bs : List Nat)
  | timeArg (t : Nat)
  | ptrTime (t : Option Nat)
  | jsonRaw (bs : Option (List Nat))
  | other (goType : String)
  deriving DecidableEq

/-- The Go `%T` name of an argument's dynamic type (used in error messages;
for a `types.Value` the dynamic type is an SDK-internal struct, summarised). -/
def Arg.goType : Arg → String
  | .value _ => "types.Value"
  | .boolArg _ => "bool"
  | .ptrBool _ => "*bool"
  | .intArg _ => "int"
  | .ptrInt _ => "*int"
  | .int8Arg _ => "int8"
  | .ptrInt8 _ => "*int8"
  | .int16Arg _ => "int16"
  | .ptrInt16 _ => "*int16"
  | .int32Arg _ => "int32"
  | .ptrInt32 _ => "*int32"
  | .int64Arg _ => "int64"
  | .ptrInt64 _ => "*int64"
  | .uintArg _ => "uint"
  | .ptrUint _ => "*uint"
  | .uint8Arg _ => "uint8"
  | .ptrUint8 _ => "*uint8"
  | .uint16Arg _ => "uint16"
  | .ptrUint16 _ => "*uint16"
  | .uint32Arg _ => "uint32"
  | .ptrUint32 _ => "*uint32"
  | .uint64Arg _ => "uint64"
  | .ptrUint64 _ => "*uint64"
  | .float32Arg _ => "float32"
  | .ptrFloat32 _ => "*float32"
  | .float64Arg _ => "float64"
  | .ptrFloat64 _ => "*float64"
  | .stringArg _ => "string"
  | .ptrString _ => "*string"
  | .bytesArg _ => "[]uint8"
  | .timeArg _ => "time.Time"
  | .ptrTime _ => "*time.Time"
  | .jsonRaw _ => "json.RawMessage"
  | .other t => t

/-- The Go type assertion `arg.(types.Value)`: `some v` with the asserted
value when the dynamic type is a `types.Value`, `none` otherwise. -/
def Arg.asValue : Arg → Option YValue
  | .value v => some v
  | _ => none

theorem Arg.asValue_eq_some {arg : Arg} {v : YValue} :
    arg.asValue = some v ↔ arg = .value v := by
  cases arg <;> simp [Arg.asValue]

/-- The structured error values produced by this code (`fmt.Errorf` results).
`wrapped` models `fmt.Errorf("ctx: %w", err)`. -/
inductive SqError : Type
  | notTypedValue (goType : String)
  | unsupportedType (goType : String)
  | wrapped (ctx : String) (e : SqError)
  deriving DecidableEq

/-- Result of a Go function returning `(α, error)`. -/
inductive Res (α : Type) : Type
  | ok (a : α)
  | err (e : SqError)
  deriving DecidableEq

/-- Result of a Go computation that may additionally panic by dereferencing a
nil pointer (an uncatchable runtime fault, not an `error` value). -/
inductive CastResult (α : Type) : Type
  | ok (a : α)
  | err (e : SqError)
  | nilDerefFault
  deriving DecidableEq

/-- Embedding of `castArgToYQL` (squirrel.go:249-389): the single-value codec.
The type switch dispatches on the argument's dynamic type.  Note:

* the `*int` case executes `tt := int64(*t)` and the `*uint` case
  `tt := uint64(*t)` — Go dereferences the pointer with no nil check, so a
  typed-nil `*int`/`*uint` is a runtime panic (`nilDerefFault` here); every
  other pointer case passes the pointer to a nil-safe SDK
  `Nullable...Value` constructor;
* there is no `types.Value` case, so an already-typed value falls through to
  the `default` arm and is reported as unsupported;
* `json.RawMessage` is checked against nil (typed-nil → absent nullable JSON,
  anything else including the empty slice → present JSON). -/
def castArgToYQL : Arg → CastResult (List YValue)
  | .boolArg t => .ok [YValue.boolValue t]
  | .ptrBool t => .ok [YValue.nullableBool t]
  | .intArg t => .ok [YValue.int64Value t]
  | .ptrInt t =>
    match t with
    | none => .nilDerefFault
    | some x => .ok [YValue.nullableInt64 (some x)]
  | .int8Arg t => .ok [YValue.int8Value t]
  | .ptrInt8 t => .ok [YValue.nullableInt8 t]
  | .int16Arg t => .ok [YValue.int16Value t]
  | .ptrInt16 t => .ok [YValue.nullableInt16 t]
  | .int32Arg t => .ok [YValue.int32Value t]
  | .ptrInt32 t => .ok [YValue.nullableInt32 t]
  | .int64Arg t => .ok [YValue.int64Value t]
  | .ptrInt64 t => .ok [YValue.nullableInt64 t]
  | .uintArg t => .ok [YValue.uint64Value t]
  | .ptrUint t =>
    match t with
    | none => .nilDerefFault
    | some x => .ok [YValue.nullableUint64 (some x)]
  | .uint8Arg t => .ok [YValue.uint8Value t]
  | .ptrUint8 t => .ok [YValue.nullableUint8 t]
  | .uint16Arg t => .ok [YValue.uint16Value t]
  | .ptrUint16 t => .ok [YValue.nullableUint16 t]
  | .uint32Arg t => .ok [YValue.uint32Value t]
  | .ptrUint32 t => .ok [YValue.nullableUint32 t]
  | .uint64Arg t => .ok [YValue.uint64Value t]
  | .ptrUint64 t => .ok [YValue.nullableUint64 t]
  | .float32Arg t => .ok [YValue.floatValue t]
  | .ptrFloat32 t => .ok [YValue.nullableFloat t]
  | .float64Arg t => .ok [YValue.doubleValue t]
  | .ptrFloat64 t => .ok [YValue.nullableDouble t]
  | .stringArg t => .ok [YValue.textValue t]
  | .ptrString t => .ok [YValue.nullableText t]
  | .bytesArg t => .ok [YValue.bytesValue t]
  | .timeArg t => .ok [YValue.timestampValue t]
  | .ptrTime t => .ok [YValue.nullableTimestamp t]
  | .jsonRaw t =>
    match t with
    | none => .ok [YValue.nullableJson none]
    | some bs => .ok [YValue.jsonValue bs]
  | arg => .err (.unsupportedType arg.goType)

/-- The loop body of `castArgsToYQL` (squirrel.go:231-244): an argument that is
already a `types.Value` is appended unchanged; otherwise it is cast and the
resulting values appended; the first error aborts, wrapped with the
`"castArgToYQL"` context; a panic propagates. -/
def castArgsLoop : List Arg → CastResult (List Arg)
  | [] => .ok []
  | arg :: rest =>
    match arg.asValue with
    | some _ =>
      match castArgsLoop rest with
      | .ok r => .ok (arg :: r)
      | .err e => .err e
      | .nilDerefFault => .nilDerefFault
    | none =>
      match castArgToYQL arg with
      | .err e => .err (.wrapped "castArgToYQL" e)
      | .nilDerefFault => .nilDerefFault
      | .ok vs =>
        match castArgsLoop rest with
        | .ok r => .ok (vs.map Arg.value ++ r)
        | .err e => .err e
        | .nilDerefFault => .nilDerefFault

/-- Embedding of `castArgsToYQL` (squirrel.go:225-247): the list codec.  An
empty argument list short-circuits to the nil (empty) result. -/
def castArgsToYQL (args : List Arg) : CastResult (List Arg) :=
  if args.length = 0 then .ok [] else castArgsLoop args

/-- The loop of `prepareYQLString` (squirrel.go:194-208): for each argument in
order (`i` is the 0-based Go loop index; the printed index is `i+1`), fail
with the not-a-`ydb.Value` error if it is not a `types.Value`, else emit
`DECLARE $p<i+1> AS <Type().Yql()>;` and a line break. -/
def declareLoop : List Arg → Nat → Res String
  | [], _ => .ok ""
  | arg :: rest, i =>
    match arg.asValue with
    | some v =>
      match declareLoop rest (i + 1) with
      | .ok s => .ok ("DECLARE $p" ++ toString (i + 1) ++ " AS " ++ v.typeYql ++ ";\n" ++ s)
      | .err e => .err e
    | none => .err (.notTypedValue arg.goType)

/-- Embedding of `prepareYQLString` (squirrel.go:194-208): the declaration
lines followed by the original query body, unmodified; on failure no partial
text is produced (Go returns `""` with the error). -/
def prepareYQLString (sql : String) (args : List Arg) : Res String :=
  match declareLoop args 0 with
  | .ok decls => .ok (decls ++ sql)
  | .err e => .err e

/-- The loop of `prepareYQLParams` (squirrel.go:210-223): same per-argument
check as `declareLoop`; produces `table.ValueParam("p<i+1>", value)` pairs. -/
def paramsLoop : List Arg → Nat → Res (List (String × YValue))
  | [], _ => .ok []
  | arg :: rest, i =>
    match arg.asValue with
    | some v =>
      match paramsLoop rest (i + 1) with
      | .ok ps => .ok (("p" ++ toString (i + 1), v) :: ps)
      | .err e => .err e
    | none => .err (.notTypedValue arg.goType)

/-- Embedding of `prepareYQLParams` (squirrel.go:210-223). -/
def prepareYQLParams (args : List Arg) : Res (List (String × YValue)) :=
  paramsLoop args 0

/-! ## DebugSqlizer

Query texts are modelled as `List Char`; each argument is modelled by its Go
`%v` default textual representation (a `String`), since the interpolation
loop only ever formats an argument with `fmt.Fprintf(buf, "'%v'", args[i])`.
The placeholder is a single character (the spec fixes it to one character;
the default is `?`). -/

/-- Result of the `DebugSqlizer` interpolation loop.  The Go function returns
one string in all three cases; the two error strings carry the remaining
query text and the argument count, modelled here structurally. -/
inductive RenderResult : Type
  | ok (s : List Char)
  | tooMany (remaining : List Char) (numArgs : Nat)
  | notEnough (remaining : List Char) (numArgs : Nat)
  deriving DecidableEq

/-- `'%v'`: an argument's textual form wrapped in single quotes. -/
def quoteArg (a : String) : List Char := squote :: a.data ++ [squote]

/-- Model of `strings.Index(sql, placeholder)` for a single-character
placeholder, returned as the decomposition it induces: `some (pre, post)`
with `sql = pre ++ ph :: post` and no occurrence of `ph` in `pre`;
`none` when `ph` does not occur (`Index` returns `-1`). -/
def splitFirst (ph : Char) : List Char → Option (List Char × List Char)
  | [] => none
  | c :: rest =>
    if c = ph then some ([], rest)
    else (splitFirst ph rest).map (fun pr => (c :: pr.1, pr.2))

theorem splitFirst_some {ph : Char} {sql pre post : List Char}
    (h : splitFirst ph sql = some (pre, post)) :
    sql = pre ++ ph :: post ∧ ph ∉ pre := by
  induction sql generalizing pre with
  | nil => simp [splitFirst] at h
  | cons c rest ih =>
    rw [splitFirst] at h
    by_cases hc : c = ph
    · rw [if_pos hc] at h
      simp only [Option.some.injEq, Prod.mk.injEq] at h
      obtain ⟨h1, h2⟩ := h
      subst h1; subst h2; subst hc
      simp
    · rw [if_neg hc] at h
      cases hsp : splitFirst ph rest with
      | none => rw [hsp] at h; simp at h
      | some pr =>
        rw [hsp] at h
        simp only [Option.map_some', Option.some.injEq, Prod.mk.injEq] at h
        obtain ⟨hpre, hpost⟩ := h
        obtain ⟨h1, h2⟩ := ih (show splitFirst ph rest = some (pr.1, post) by
          rw [hsp, ← hpost])
        constructor
        · rw [← hpre, h1]; simp
        · rw [← hpre]
          simp only [List.mem_cons, not_or]
          exact ⟨fun he => hc he.symm, h2⟩

theorem splitFirst_none {ph : Char} {sql : List Char}
    (h : splitFirst ph sql = none) : ph ∉ sql := by
  induction sql with
  | nil => simp
  | cons c rest ih =>
    rw [splitFirst] at h
    by_cases hc : c = ph
    · rw [if_pos hc] at h; simp at h
    · rw [if_neg hc] at h
      cases hsp : splitFirst ph rest with
      | none =>
        simp only [List.mem_cons, not_or]
        exact ⟨fun he => hc he.symm, ih hsp⟩
      | some pr => rw [hsp] at h; simp at h

/-- The interpolation loop of `DebugSqlizer` (squirrel.go:157-191), embedded
one loop iteration per recursive call.  State: `sql` is the unscanned suffix
(the Go code reslices `sql` each iteration), `i` the count of consumed
arguments, `buf` the output accumulator.  Each iteration:

* `strings.Index` finds the next placeholder occurrence (`splitFirst`); if
  none remains, the loop breaks: the code then reports `notEnough` if
  unconsumed arguments remain (the check evaluated only after the scan), else
  appends the rest of the text;
* `len(sql[p:]) > 1 && sql[p:p+2] == "??"` — the escape check is hardcoded to
  the two-character sequence `??`, not to a doubled placeholder; the code
  emits the text before the occurrence plus one literal `?`, consumes no
  argument, and skips both characters (the inner `len(sql[p:]) == 1` break is
  unreachable under the guard but is kept faithfully);
* otherwise one argument is consumed (`tooMany` if none remains) and emitted
  quoted in place of the occurrence. -/
def debugLoop (ph : Char) (args : List String) (sql : List Char) (i : Nat)
    (buf : List Char) : RenderResult :=
  match h : splitFirst ph sql with
  | none =>
    if i < args.length then .notEnough sql args.length
    else .ok (buf ++ sql)
  | some (pre, post) =>
    if 1 < post.length + 1 ∧ ph = qmark ∧ post.take 1 = [qmark] then
      let buf2 := buf ++ pre ++ [qmark]
      if post.length + 1 = 1 then
        if i < args.length then .notEnough sql args.length
        else .ok (buf2 ++ sql)
      else debugLoop ph args (post.drop 1) i buf2
    else
      if args.length < i + 1 then .tooMany sql args.length
      else debugLoop ph args post (i + 1) (buf ++ pre ++ quoteArg (args.getD i ""))
termination_by sql.length
decreasing_by
  all_goals
    have hs := (splitFirst_some h).1
    have : sql.length = pre.length + post.length + 1 := by simp [hs]; omega
    simp [List.length_drop]
    omega

/-- The interpolation pass of `DebugSqlizer` on a successfully produced query
text, with a given single-character placeholder. -/
def debugRender (ph : Char) (sql : List Char) (args : List String) : RenderResult :=
  debugLoop ph args sql 0 []

/-! ### Unfolding and step lemmas for the interpolation loop -/

theorem debugLoop_none {ph : Char} {sql : List Char} (args : List String) (i : Nat)
    (buf : List Char) (hsp : splitFirst ph sql = none) :
    debugLoop ph args sql i buf =
      if i < args.length then .notEnough sql args.length else .ok (buf ++ sql) := by
  rw [debugLoop]
  split
  · rfl
  · rename_i pre post h
    rw [hsp] at h
    cases h

theorem debugLoop_some {ph : Char} {sql pre post : List Char} (args : List String)
    (i : Nat) (buf : List Char) (hsp : splitFirst ph sql = some (pre, post)) :
    debugLoop ph args sql i buf =
      if 1 < post.length + 1 ∧ ph = qmark ∧ post.take 1 = [qmark] then
        if post.length + 1 = 1 then
          if i < args.length then .notEnough sql args.length
          else .ok (buf ++ pre ++ [qmark] ++ sql)
        else debugLoop ph args (post.drop 1) i (buf ++ pre ++ [qmark])
      else
        if args.length < i + 1 then .tooMany sql args.length
        else debugLoop ph args post (i + 1) (buf ++ pre ++ quoteArg (args.getD i "")) := by
  rw [debugLoop]
  split
  · rename_i h
    rw [hsp] at h
    cases h
  · rename_i pre' post' h
    rw [hsp] at h
    injection h with h
    cases h
    rfl

theorem debugLoop_notEnough {ph : Char} {sql : List Char} {args : List String} {i : Nat}
    (buf : List Char) (hsp : splitFirst ph sql = none) (hi : i < args.length) :
    debugLoop ph args sql i buf = .notEnough sql args.length := by
  rw [debugLoop_none args i buf hsp]
  exact if_pos hi

theorem debugLoop_done {ph : Char} {sql : List Char} {args : List String} {i : Nat}
    (buf : List Char) (hsp : splitFirst ph sql = none) (hi : ¬ i < args.length) :
    debugLoop ph args sql i buf = .ok (buf ++ sql) := by
  rw [debugLoop_none args i buf hsp]
  exact if_neg hi

theorem debugLoop_escape {ph : Char} {sql pre post : List Char} (args : List String)
    (i : Nat) (buf : List Char)
    (hsp : splitFirst ph sql = some (pre, qmark :: post)) (hq : ph = qmark) :
    debugLoop ph args sql i buf = debugLoop ph args post i (buf ++ pre ++ [qmark]) := by
  rw [debugLoop_some args i buf hsp]
  rw [if_pos ⟨by simp, hq, by simp⟩]
  simp

theorem debugLoop_tooMany {ph : Char} {sql pre post : List Char} {args : List String}
    {i : Nat} (buf : List Char)
    (hsp : splitFirst ph sql = some (pre, post))
    (hne : ¬(ph = qmark ∧ post.take 1 = [qmark]))
    (hi : args.length < i + 1) :
    debugLoop ph args sql i buf = .tooMany sql args.length := by
  rw [debugLoop_some args i buf hsp]
  rw [if_neg (fun hcond => hne ⟨hcond.2.1, hcond.2.2⟩)]
  exact if_pos hi

theorem debugLoop_subst {ph : Char} {sql pre post : List Char} {args : List String}
    {i : Nat} (buf : List Char)
    (hsp : splitFirst ph sql = some (pre, post))
    (hne : ¬(ph = qmark ∧ post.take 1 = [qmark]))
    (hi : ¬ args.length < i + 1) :
    debugLoop ph args sql i buf
      = debugLoop ph args post (i + 1) (buf ++ pre ++ quoteArg (args.getD i "")) := by
  rw [debugLoop_some args i buf hsp]
  rw [if_neg (fun hcond => hne ⟨hcond.2.1, hcond.2.2⟩)]
  exact if_neg hi

/-! ### Specification-side scan

`specRender` is the left-to-right scan written from the spec's §4.2 wording,
with the escape rule as the code actually implements it: an occurrence of the
placeholder that starts the literal two-character sequence `??` is an escape
collapsed to a single `?`; any other occurrence consumes one argument and is
replaced by the argument's quoted textual form; every other character is
copied unchanged; the scan succeeds exactly when it ends with the argument
list exhausted. -/

def specRender (ph : Char) : List Char → List String → Option (List Char)
  | [], [] => some []
  | [], _ :: _ => none
  | c :: c2 :: cs, args =>
    if c = ph then
      if c = qmark ∧ c2 = qmark then
        (specRender ph cs args).map (fun r => qmark :: r)
      else
        match args with
        | [] => none
        | a :: rest => (specRender ph (c2 :: cs) rest).map (fun r => quoteArg a ++ r)
    else (specRender ph (c2 :: cs) args).map (fun r => c :: r)
  | [c], args =>
    if c = ph then
      match args with
      | [a] => some (quoteArg a)
      | _ => none
    else
      match args with
      | [] => some [c]
      | _ => none

/-- Single-step equation for `specRender` with the lookahead phrased via
`head?`/`tail`. -/
theorem specRender_cons (ph c : Char) (cs : List Char) (args : List String) :
    specRender ph (c :: cs) args =
      if c = ph then
        if c = qmark ∧ cs.head? = some qmark then
          (specRender ph cs.tail args).map (fun r => qmark :: r)
        else
          match args with
          | [] => none
          | a :: rest => (specRender ph cs rest).map (fun r => quoteArg a ++ r)
      else (specRender ph cs args).map (fun r => c :: r) := by
  cases cs with
  | nil =>
    by_cases hc : c = ph
    · rw [if_pos hc, if_neg (by simp)]
      cases args with
      | nil => simp [specRender, hc]
      | cons a rest =>
        cases rest with
        | nil => simp [specRender, hc]
        | cons b bs => simp [specRender, hc]
    · rw [if_neg hc]
      cases args with
      | nil => simp [specRender, hc]
      | cons a rest => simp [specRender, hc]
  | cons c2 cs2 =>
    by_cases hc : c = ph
    · rw [if_pos hc]
      by_cases hesc : c = qmark ∧ c2 = qmark
      · rw [if_pos (by simpa using hesc)]
        simp only [specRender, if_pos hc, if_pos hesc, List.tail_cons]
      · rw [if_neg (by simpa using hesc)]
        simp only [specRender, if_pos hc, if_neg hesc]
    · rw [if_neg hc]
      simp only [specRender, if_neg hc]

theorem specRender_no_occ {ph : Char} {sql : List Char} (hno : ph ∉ sql)
    (args : List String) :
    specRender ph sql args = match args with | [] => some sql | _ :: _ => none := by
  induction sql with
  | nil => cases args <;> simp [specRender]
  | cons c cs ih =>
    simp at hno
    rw [specRender_cons, if_neg (fun hc => hno.1 hc.symm),
      ih (by simpa using hno.2)]
    cases args <;> simp

theorem specRender_append {ph : Char} {pre : List Char} (hno : ph ∉ pre)
    (rest : List Char) (args : List String) :
    specRender ph (pre ++ rest) args = (specRender ph rest args).map (fun r => pre ++ r) := by
  induction pre with
  | nil => simp
  | cons c cs ih =>
    simp at hno
    rw [List.cons_append, specRender_cons, if_neg (fun hc => hno.1 hc.symm),
      ih (by simpa using hno.2)]
    cases specRender ph rest args <;> simp

/-- The number of arguments the interpolation scan consumes: one per
placeholder occurrence outside a literal `??` escape. -/
def consumeCount (ph : Char) : List Char → Nat
  | [] => 0
  | [c] => if c = ph then 1 else 0
  | c :: c2 :: cs =>
    if c = ph then
      if c = qmark ∧ c2 = qmark then consumeCount ph cs
      else 1 + consumeCount ph (c2 :: cs)
    else consumeCount ph (c2 :: cs)

theorem consumeCount_cons (ph c : Char) (cs : List Char) :
    consumeCount ph (c :: cs) =
      if c = ph then
        if c = qmark ∧ cs.head? = some qmark then consumeCount ph cs.tail
        else 1 + consumeCount ph cs
      else consumeCount ph cs := by
  cases cs with
  | nil =>
    by_cases hc : c = ph
    · rw [if_pos hc, if_neg (by simp)]
      simp [consumeCount, hc]
    · rw [if_neg hc]
      simp [consumeCount, hc]
  | cons c2 cs2 =>
    by_cases hc : c = ph
    · rw [if_pos hc]
      by_cases hesc : c = qmark ∧ c2 = qmark
      · rw [if_pos (by simpa using hesc)]
        simp only [consumeCount, if_pos hc, if_pos hesc, List.tail_cons]
      · rw [if_neg (by simpa using hesc)]
        simp only [consumeCount, if_pos hc, if_neg hesc]
    · rw [if_neg hc]
      simp only [consumeCount, if_neg hc]

theorem consumeCount_no_occ {ph : Char} {sql : List Char} (hno : ph ∉ sql) :
    consumeCount ph sql = 0 := by
  induction sql with
  | nil => simp [consumeCount]
  | cons c cs ih =>
    simp at hno
    rw [consumeCount_cons, if_neg (fun hc => hno.1 hc.symm)]
    exact ih (by simpa using hno.2)

theorem consumeCount_append {ph : Char} {pre : List Char} (hno : ph ∉ pre)
    (rest : List Char) :
    consumeCount ph (pre ++ rest) = consumeCount ph rest := by
  induction pre with
  | nil => simp
  | cons c cs ih =>
    simp at hno
    rw [List.cons_append, consumeCount_cons, if_neg (fun hc => hno.1 hc.symm)]
    exact ih (by simpa using hno.2)

/-- Modelled from the spec: the count of placeholder occurrences that are not
escaped when, per the spec's §4.2 step 3, an occurrence immediately followed
by the SAME token (the token doubled) is an escape — for any token, not only
for `?`.  Used to state the claims' original reading; the code's hardcoded
`??` check disagrees with it for tokens other than `?`. -/
def specEscapeCount (ph : Char) : List Char → Nat
  | [] => 0
  | [c] => if c = ph then 1 else 0
  | c :: c2 :: cs =>
    if c = ph then
      if c2 = ph then specEscapeCount ph cs
      else 1 + specEscapeCount ph (c2 :: cs)
    else specEscapeCount ph (c2 :: cs)

theorem take_one_eq_iff {α : Type} {l : List α} {c : α} :
    l.take 1 = [c] ↔ l.head? = some c := by
  cases l <;> simp

/-- Main correspondence, loop form: if the specification-side scan of the
unscanned suffix against the not-yet-consumed arguments succeeds with `out`,
the code's loop returns the accumulator followed by `out`. -/
theorem debugLoop_spec_aux (ph : Char) : ∀ (n : Nat) (sql : List Char),
    sql.length ≤ n → ∀ (args : List String) (i : Nat) (buf out : List Char),
    specRender ph sql (args.drop i) = some out →
    debugLoop ph args sql i buf = .ok (buf ++ out) := by
  intro n
  induction n with
  | zero =>
    intro sql hlen args i buf out hspec
    have hsql : sql = [] := List.eq_nil_of_length_eq_zero (Nat.le_zero.mp hlen)
    subst hsql
    cases hd : args.drop i with
    | nil =>
      rw [hd] at hspec
      simp only [specRender, Option.some.injEq] at hspec
      have hge : ¬ i < args.length := by
        have := List.drop_eq_nil_iff.mp hd; omega
      rw [debugLoop_done buf (by rw [splitFirst]) hge, ← hspec]
    | cons a rest =>
      rw [hd] at hspec
      simp [specRender] at hspec
  | succ n ih =>
    intro sql hlen args i buf out hspec
    cases hsp : splitFirst ph sql with
    | none =>
      have hno := splitFirst_none hsp
      rw [specRender_no_occ hno] at hspec
      cases hd : args.drop i with
      | nil =>
        rw [hd] at hspec
        simp only [Option.some.injEq] at hspec
        have hge : ¬ i < args.length := by
          have := List.drop_eq_nil_iff.mp hd; omega
        rw [debugLoop_done buf hsp hge, hspec]
      | cons a rest =>
        rw [hd] at hspec
        cases hspec
    | some pr =>
      obtain ⟨pre, post⟩ := pr
      obtain ⟨hsql, hnopre⟩ := splitFirst_some hsp
      have hlt : post.length < sql.length := by
        rw [hsql]
        simp only [List.length_append, List.length_cons]
        omega
      rw [hsql, specRender_append hnopre] at hspec
      rw [Option.map_eq_some'] at hspec
      obtain ⟨out1, hspec1, hout⟩ := hspec
      rw [specRender_cons, if_pos rfl] at hspec1
      by_cases hesc : ph = qmark ∧ post.head? = some qmark
      · rw [if_pos hesc, Option.map_eq_some'] at hspec1
        obtain ⟨out2, hs2, hout1⟩ := hspec1
        obtain ⟨post2, hpost⟩ := List.head?_eq_some_iff.mp hesc.2
        rw [hpost] at hsp
        rw [debugLoop_escape args i buf hsp hesc.1]
        have hlen2 : post2.length ≤ n := by
          rw [hpost] at hlt; simp at hlt; omega
        have hs2' : specRender ph post2 (args.drop i) = some out2 := by
          rw [hpost] at hs2; simpa using hs2
        rw [ih post2 hlen2 args i (buf ++ pre ++ [qmark]) out2 hs2']
        rw [← hout, ← hout1]
        simp
      · rw [if_neg hesc] at hspec1
        cases hd : args.drop i with
        | nil =>
          rw [hd] at hspec1
          cases hspec1
        | cons a rest =>
          rw [hd, Option.map_eq_some'] at hspec1
          obtain ⟨out2, hs2, hout1⟩ := hspec1
          have hi : i < args.length := by
            by_contra hge
            have hnil : args.drop i = [] := List.drop_eq_nil_iff.mpr (by omega)
            rw [hnil] at hd
            cases hd
          have hgetD : args.getD i "" = a := by
            have h1 : (args.drop i).head? = args[i]? := List.head?_drop args i
            rw [hd] at h1
            rw [List.getD_eq_getElem?_getD, ← h1]
            rfl
          have hrest : args.drop (i + 1) = rest := by
            have ht := List.tail_drop args i
            rw [hd] at ht
            simpa using ht.symm
          have hne : ¬(ph = qmark ∧ post.take 1 = [qmark]) := by
            intro hcond
            exact hesc ⟨hcond.1, take_one_eq_iff.mp hcond.2⟩
          rw [debugLoop_subst buf hsp hne (by omega), hgetD]
          have hlen2 : post.length ≤ n := by omega
          rw [ih post hlen2 args (i + 1) (buf ++ pre ++ quoteArg a) out2
            (by rw [hrest]; exact hs2)]
          rw [← hout, ← hout1]
          simp

/-- Error characterization, loop form: relative to the number of arguments the
scan of the suffix will consume, the loop fails with `tooMany` when the
arguments run short, fails with `notEnough` when arguments are left over after
the scan (and then the reported remainder contains no further placeholder
occurrence), and succeeds when the counts agree exactly. -/
theorem debugLoop_count_aux (ph : Char) : ∀ (n : Nat) (sql : List Char),
    sql.length ≤ n → ∀ (args : List String) (i : Nat) (buf : List Char),
    i ≤ args.length →
    (args.length < i + consumeCount ph sql →
      ∃ r, debugLoop ph args sql i buf = .tooMany r args.length) ∧
    (i + consumeCount ph sql < args.length →
      ∃ r, debugLoop ph args sql i buf = .notEnough r args.length ∧
        splitFirst ph r = none) ∧
    (i + consumeCount ph sql = args.length →
      ∃ out, debugLoop ph args sql i buf = .ok out) := by
  intro n
  induction n with
  | zero =>
    intro sql hlen args i buf hi
    have hsql : sql = [] := List.eq_nil_of_length_eq_zero (Nat.le_zero.mp hlen)
    subst hsql
    refine ⟨fun h => ?_, fun h => ?_, fun h => ?_⟩
    · simp only [consumeCount] at h
      omega
    · simp only [consumeCount] at h
      exact ⟨[], debugLoop_notEnough buf (by rw [splitFirst]) (by omega),
        by rw [splitFirst]⟩
    · simp only [consumeCount] at h
      exact ⟨buf ++ [], debugLoop_done buf (by rw [splitFirst]) (by omega)⟩
  | succ n ih =>
    intro sql hlen args i buf hi
    cases hsp : splitFirst ph sql with
    | none =>
      have hcc : consumeCount ph sql = 0 := consumeCount_no_occ (splitFirst_none hsp)
      rw [hcc]
      refine ⟨fun h => ?_, fun h => ?_, fun h => ?_⟩
      · omega
      · exact ⟨sql, debugLoop_notEnough buf hsp (by omega), hsp⟩
      · exact ⟨buf ++ sql, debugLoop_done buf hsp (by omega)⟩
    | some pr =>
      obtain ⟨pre, post⟩ := pr
      obtain ⟨hsql, hnopre⟩ := splitFirst_some hsp
      have hlt : post.length < sql.length := by
        rw [hsql]
        simp only [List.length_append, List.length_cons]
        omega
      have hcc : consumeCount ph sql = consumeCount ph (ph :: post) := by
        rw [hsql]
        exact consumeCount_append hnopre _
      rw [hcc, consumeCount_cons, if_pos rfl]
      by_cases hesc : ph = qmark ∧ post.head? = some qmark
      · rw [if_pos hesc]
        obtain ⟨post2, hpost⟩ := List.head?_eq_some_iff.mp hesc.2
        rw [hpost] at hsp
        have hlen2 : post2.length ≤ n := by
          rw [hpost] at hlt
          simp at hlt
          omega
        have ihp := ih post2 hlen2 args i (buf ++ pre ++ [qmark]) hi
        rw [hpost]
        simp only [List.tail_cons]
        rw [debugLoop_escape args i buf hsp hesc.1]
        exact ihp
      · rw [if_neg hesc]
        have hne : ¬(ph = qmark ∧ post.take 1 = [qmark]) :=
          fun hcond => hesc ⟨hcond.1, take_one_eq_iff.mp hcond.2⟩
        have hlen2 : post.length ≤ n := by omega
        by_cases hi1 : args.length < i + 1
        · refine ⟨fun h => ⟨sql, debugLoop_tooMany buf hsp hne hi1⟩,
            fun h => ?_, fun h => ?_⟩
          · omega
          · omega
        · have ihp := ih post hlen2 args (i + 1)
            (buf ++ pre ++ quoteArg (args.getD i "")) (by omega)
          rw [debugLoop_subst buf hsp hne hi1]
          exact ⟨fun h => ihp.1 (by omega), fun h => ihp.2.1 (by omega),
            fun h => ihp.2.2 (by omega)⟩

/-- Main correspondence, top form: a successful specification-side scan is
exactly reproduced by the `DebugSqlizer` interpolation pass. -/
theorem debugRender_spec {ph : Char} {sql : List Char} {args : List String}
    {out : List Char} (hspec : specRender ph sql args = some out) :
    debugRender ph sql args = .ok out := by
  have := debugLoop_spec_aux ph sql.length sql le_rfl args 0 [] out (by simpa using hspec)
  simpa using this

/-- Error characterization, top form. -/
theorem debugRender_count (ph : Char) (sql : List Char) (args : List String) :
    ((∃ r, debugRender ph sql args = .tooMany r args.length) ↔
      args.length < consumeCount ph sql) ∧
    ((∃ r, debugRender ph sql args = .notEnough r args.length) ↔
      consumeCount ph sql < args.length) ∧
    (∀ r m, debugRender ph sql args = .notEnough r m →
      m = args.length ∧ splitFirst ph r = none) := by
  have H := debugLoop_count_aux ph sql.length sql le_rfl args 0 [] (Nat.zero_le _)
  simp only [Nat.zero_add] at H
  rw [show debugLoop ph args sql 0 [] = debugRender ph sql args from rfl] at H
  obtain ⟨h1, h2, h3⟩ := H
  refine ⟨⟨fun hex => ?_, h1⟩, ⟨fun hex => ?_, fun h => (h2 h).imp fun r hr => hr.1⟩,
    fun r m hr => ?_⟩
  · obtain ⟨r, hr⟩ := hex
    rcases Nat.lt_trichotomy args.length (consumeCount ph sql) with hlt | heq | hgt
    · exact hlt
    · obtain ⟨out, hout⟩ := h3 heq.symm
      rw [hr] at hout
      cases hout
    · obtain ⟨r', hr', _⟩ := h2 hgt
      rw [hr] at hr'
      cases hr'
  · obtain ⟨r, hr⟩ := hex
    rcases Nat.lt_trichotomy (consumeCount ph sql) args.length with hlt | heq | hgt
    · exact hlt
    · obtain ⟨out, hout⟩ := h3 heq
      rw [hr] at hout
      cases hout
    · obtain ⟨r', hr'⟩ := h1 hgt
      rw [hr] at hr'
      cases hr'
  · rcases Nat.lt_trichotomy (consumeCount ph sql) args.length with hlt | heq | hgt
    · obtain ⟨r', hr', hsp'⟩ := h2 hlt
      rw [hr] at hr'
      injection hr' with e1 e2
      subst e1
      subst e2
      exact ⟨rfl, hsp'⟩
    · obtain ⟨out, hout⟩ := h3 heq
      rw [hr] at hout
      cases hout
    · obtain ⟨r', hr'⟩ := h1 hgt
      rw [hr] at hr'
      cases hr'

/-! ## Single-row execution with deferred errors

`QueryRowWith` (squirrel.go:128-132) and the `Row`/`RowScanner` types.  A
`Sqlizer` is modelled by the triple its `ToSql` method produces; a
`QueryRower` backend is a function from the rendered query text and the
argument list to the row cursor it returns.  The Go `error` interface is
modelled as `Option String` (`none` = nil error). -/

/-- Model of a `RowScanner` row cursor: observationally, the error its `Scan`
method reports (`none` for a successful scan). -/
structure RowScanner : Type where
  scanErr : Option String
  deriving DecidableEq

/-- Model of the `Row` type of this repository: the wrapped cursor plus an
optional pre-existing production error. -/
structure Row : Type where
  rowScanner : RowScanner
  err : Option String
  deriving DecidableEq

/-- Model of a query object's `ToSql` production result. -/
structure SqlizerData : Type where
  query : String
  args : List Arg
  toSqlErr : Option String
  deriving DecidableEq

/-- Embedding of `QueryRowWith` (squirrel.go:128-132): the production step's
three results are taken, and the backend's `QueryRow` is invoked
unconditionally — the production error is not checked before the call; the
returned handle wraps the backend's cursor together with that error. -/
def QueryRowWith (db : String → List Arg → RowScanner) (s : SqlizerData) : Row :=
  { rowScanner := db s.query s.args, err := s.toSqlErr }

/-- Modelled from the spec: the `Scan` method of `Row` is defined in a file of
this repository that is not under src/.  Per the spec (§3 DeferredRow, §7),
scanning surfaces the pre-existing error in preference to attempting to read
the cursor, and otherwise delegates to the wrapped cursor. -/
def Row.scan (r : Row) : Option String :=
  match r.err with
  | some e => some e
  | none => r.rowScanner.scanErr

/-! ## Canonical declared-query text (specification side) -/

/-- The declaration block the spec prescribes for a named-binding list: one
`DECLARE $<name> AS <type>;` line (followed by a line break) per binding, in
order, each line derived from the binding at the same position. -/
def specDecls : List (String × YValue) → String
  | [] => ""
  | p :: rest => "DECLARE $" ++ p.1 ++ " AS " ++ p.2.typeYql ++ ";\n" ++ specDecls rest

/-- The declaration block with explicit 1-based indices starting at `j`:
`DECLARE $p<j> AS <type>;` per value, `j` increasing by one per line. -/
def declTextFrom (j : Nat) : List YValue → String
  | [] => ""
  | v :: vs => "DECLARE $p" ++ toString j ++ " AS " ++ v.typeYql ++ ";\n"
      ++ declTextFrom (j + 1) vs

/-- Joint shape of the two prepare loops, generalized over the starting
index: on joint success the bindings are named `p<i+k+1>` positionally and
the declaration text is exactly the canonical per-binding block. -/
theorem prepare_loops_agree : ∀ (args : List Arg) (i : Nat) (s : String)
    (ps : List (String × YValue)),
    declareLoop args i = .ok s → paramsLoop args i = .ok ps →
    ps.length = args.length ∧
    (∀ k, (hk : k < ps.length) → (ps.get ⟨k, hk⟩).1 = "p" ++ toString (i + k + 1)) ∧
    s = specDecls ps := by
  intro args
  induction args with
  | nil =>
    intro i s ps h1 h2
    simp only [declareLoop, Res.ok.injEq] at h1
    simp only [paramsLoop, Res.ok.injEq] at h2
    subst h1
    subst h2
    exact ⟨rfl, fun k hk => absurd hk (by simp), by simp [specDecls]⟩
  | cons arg rest ih =>
    intro i s ps h1 h2
    cases hv : arg.asValue with
    | none =>
      simp only [declareLoop, hv] at h1
      cases h1
    | some v =>
      simp only [declareLoop, hv] at h1
      simp only [paramsLoop, hv] at h2
      cases hd : declareLoop rest (i + 1) with
      | err e =>
        rw [hd] at h1
        cases h1
      | ok s' =>
        cases hp : paramsLoop rest (i + 1) with
        | err e =>
          rw [hp] at h2
          cases h2
        | ok ps' =>
          rw [hd] at h1
          rw [hp] at h2
          simp only [Res.ok.injEq] at h1 h2
          obtain ⟨l1, l2, l3⟩ := ih (i + 1) s' ps' hd hp
          subst h1
          subst h2
          refine ⟨by simp [l1], fun k hk => ?_, ?_⟩
          · match k with
            | 0 =>
              show "p" ++ toString (i + 1) = "p" ++ toString (i + 0 + 1)
              rfl
            | k + 1 =>
              have hk' : k < ps'.length := by simpa using hk
              have := l2 k hk'
              show (ps'.get ⟨k, hk'⟩).1 = "p" ++ toString (i + (k + 1) + 1)
              rw [this]
              have : i + 1 + k + 1 = i + (k + 1) + 1 := by omega
              rw [this]
          · rw [l3]
            show _ = "DECLARE $" ++ ("p" ++ toString (i + 1)) ++ " AS "
              ++ v.typeYql ++ ";\n" ++ specDecls ps'
            rw [← String.append_assoc]
            rfl

/-- `declareLoop` on a list of already-typed values succeeds with the
canonical declaration block, indices starting at `j + 1`. -/
theorem declareLoop_values : ∀ (vs : List YValue) (j : Nat),
    declareLoop (vs.map Arg.value) j = .ok (declTextFrom (j + 1) vs) := by
  intro vs
  induction vs with
  | nil => intro j; rfl
  | cons v rest ih =>
    intro j
    simp only [List.map_cons, declareLoop, Arg.asValue, ih (j + 1)]
    rfl

/-- `declareLoop` aborts at the first argument that is not a `types.Value`,
with the not-a-typed-value error naming that argument's dynamic type. -/
theorem declareLoop_firstBad : ∀ (pre : List YValue) (a : Arg) (post : List Arg)
    (j : Nat), a.asValue = none →
    declareLoop (pre.map Arg.value ++ a :: post) j = .err (.notTypedValue a.goType) := by
  intro pre
  induction pre with
  | nil =>
    intro a post j ha
    simp only [List.map_nil, List.nil_append, declareLoop, ha]
  | cons v rest ih =>
    intro a post j ha
    simp only [List.map_cons, List.cons_append, declareLoop, Arg.asValue,
      List.append_eq, ih a post (j + 1) ha]

/-- The list-codec loop passes a list of already-typed values through
unchanged. -/
theorem castArgsLoop_values : ∀ (vs : List YValue),
    castArgsLoop (vs.map Arg.value) = .ok (vs.map Arg.value) := by
  intro vs
  induction vs with
  | nil => rfl
  | cons v rest ih =>
    simp only [List.map_cons, castArgsLoop, Arg.asValue, ih]

/-- Auxiliary concrete evaluation: an unconsumed argument is reported by
`notEnough` only after the scan has run to completion. -/
theorem debugRender_notEnough_example :
    debugRender qmark "a".data ["x"] = .notEnough "a".data 1 := by
  show debugLoop qmark ["x"] "a".data 0 [] = .notEnough "a".data 1
  have hsp : splitFirst qmark "a".data = none := by decide
  rw [@debugLoop_notEnough qmark ("a".data) ["x"] 0 [] hsp (by decide)]
  rfl

/-! ## Claims -/

/-- C1: for every argument list, `prepareYQLString` and `prepareYQLParams`
use identical 1-based indexing: on joint success the k-th binding (0-based
position k) is named `p<k+1>` — indices strictly increasing from 1 with no
gaps — and the declared text is exactly one `DECLARE $<name> AS <type>;`
line (plus line break) per binding, in binding order with the binding's own
name, followed by the body, so declarations and binding names agree
positionally. -/
theorem claim_C1_index_agreement {sql : String} {args : List Arg} {s : String}
    {ps : List (String × YValue)}
    (h1 : prepareYQLString sql args = .ok s)
    (h2 : prepareYQLParams args = .ok ps) :
    ps.length = args.length ∧
    (∀ k, (hk : k < ps.length) → (ps.get ⟨k, hk⟩).1 = "p" ++ toString (k + 1)) ∧
    s = specDecls ps ++ sql := by
  cases hd : declareLoop args 0 with
  | err e =>
    simp only [prepareYQLString, hd] at h1
    cases h1
  | ok decls =>
    simp only [prepareYQLString, hd, Res.ok.injEq] at h1
    obtain ⟨l1, l2, l3⟩ := prepare_loops_agree args 0 decls ps hd h2
    refine ⟨l1, fun k hk => by simpa using l2 k hk, ?_⟩
    rw [← h1, l3]

/-- Witness for C1 at a concrete input. -/
theorem claim_C1_witness :
    ("DECLARE $p1 AS Int64;\nSELECT $p1" : String)
      = specDecls [("p1", YValue.int64Value 7)] ++ "SELECT $p1" :=
  (@claim_C1_index_agreement "SELECT $p1" [Arg.value (YValue.int64Value 7)]
    "DECLARE $p1 AS Int64;\nSELECT $p1" [("p1", YValue.int64Value 7)]
    (by decide) (by decide)).2.2

/-- C2 (code-bug evidence): casting a typed-nil `*int` or `*uint` panics —
the code dereferences the pointer (`tt := int64(*t)`) with no nil check —
instead of returning the nullable kind in the absent state as it does for
every other supported pointer kind; moreover a `*[]byte` has no case at all
and is rejected as unsupported.  The fault propagates through the list
codec. -/
theorem claim_C2_nil_pointer_panic :
    castArgToYQL (Arg.ptrInt none) = .nilDerefFault ∧
    castArgToYQL (Arg.ptrUint none) = .nilDerefFault ∧
    castArgsToYQL [Arg.ptrInt none] = .nilDerefFault ∧
    castArgToYQL (Arg.ptrBool none) = .ok [YValue.nullableBool none] ∧
    castArgToYQL (Arg.ptrInt64 none) = .ok [YValue.nullableInt64 none] ∧
    castArgToYQL (Arg.ptrString none) = .ok [YValue.nullableText none] ∧
    castArgToYQL (Arg.other "*[]uint8") = .err (.unsupportedType "*[]uint8") := by
  decide

/-- C3: `QueryRowWith` always invokes the backend's `QueryRow` capability —
the returned handle wraps exactly the cursor the backend produced together
with the production error, even when that error is set — and scanning the
handle surfaces the production error in preference to reading the cursor. -/
theorem claim_C3_deferred_row :
    ∀ (db : String → List Arg → RowScanner) (s : SqlizerData),
    (QueryRowWith db s).rowScanner = db s.query s.args ∧
    (QueryRowWith db s).err = s.toSqlErr ∧
    (∀ e, s.toSqlErr = some e → (QueryRowWith db s).scan = some e) := by
  intro db s
  refine ⟨rfl, rfl, fun e he => ?_⟩
  simp [QueryRowWith, Row.scan, he]

/-- Witness for C3: with a failing production step and a backend whose cursor
would itself report a different error, scanning yields the production
error. -/
theorem claim_C3_witness :
    (QueryRowWith (fun _ _ => ⟨some "scan failed"⟩)
        ⟨"SELECT", [], some "toSql failed"⟩).scan = some "toSql failed" :=
  (claim_C3_deferred_row (fun _ _ => ⟨some "scan failed"⟩)
    ⟨"SELECT", [], some "toSql failed"⟩).2.2 "toSql failed" rfl

/-- C4 counterexample: with placeholder token `$`, the text `$$` has zero
non-escaped occurrences under the claim's (the spec's) doubled-token escape
rule, so with an empty argument list rendering should succeed; the code's
escape check is hardcoded to `??`, so it treats the first `$` as a
placeholder and fails with the too-many-placeholders error. -/
theorem claim_C4_counterexample :
    specEscapeCount '$' "$$".data = 0 ∧
    debugRender '$' "$$".data [] = .tooMany "$$".data 0 := by
  refine ⟨by decide, ?_⟩
  show debugLoop '$' [] "$$".data 0 [] = .tooMany "$$".data 0
  have hsp : splitFirst '$' "$$".data = some ([], ['$']) := by decide
  rw [@debugLoop_tooMany '$' ("$$".data) [] ['$'] [] 0 [] hsp (by decide) (by decide)]
  rfl

/-- C4 (amended): with "non-escaped" meaning an occurrence that does not
start the literal sequence `??`, the rendering pass succeeds exactly on the
inputs where the specification-side scan does — each such occurrence is
replaced, left-to-right, by the corresponding argument's textual form in
single quotes, each `??` at an occurrence collapses to `?`, and all other
characters are copied unchanged; it succeeds whenever the non-escaped
occurrence count equals the argument count. -/
theorem claim_C4_render_spec : ∀ (ph : Char) (sql : List Char) (args : List String),
    (∀ out, specRender ph sql args = some out → debugRender ph sql args = .ok out) ∧
    (consumeCount ph sql = args.length → ∃ out, debugRender ph sql args = .ok out) := by
  intro ph sql args
  constructor
  · intro out h
    exact debugRender_spec h
  · intro h
    have H := debugLoop_count_aux ph sql.length sql le_rfl args 0 [] (Nat.zero_le _)
    exact H.2.2 (by omega)

/-- Witness for C4 at a concrete input. -/
theorem claim_C4_witness :
    debugRender qmark "a=?".data ["5"] = .ok ("a=".data ++ quoteArg "5") :=
  (claim_C4_render_spec qmark "a=?".data ["5"]).1
    ("a=".data ++ quoteArg "5") (by decide)

/-- C5 counterexample: with placeholder token `$`, a doubled `$$` is NOT an
escape: the code's escape check is hardcoded to the literal `??`, so both
`$` characters are treated as placeholders and two arguments are consumed
(the claim says a doubled token consumes none). -/
theorem claim_C5_counterexample :
    debugRender '$' "a$$".data ["x", "y"]
      = .ok ("a".data ++ quoteArg "x" ++ quoteArg "y") :=
  debugRender_spec (by decide)

/-- C5 (amended): the doubled-token escape exists only for the token `?`
(the escape check is the literal two-character sequence `??`): when the next
occurrence of `?` is followed by another `?`, the loop emits everything
before the occurrence plus exactly one literal `?`, advances past both
characters, and consumes no argument; in particular
`render("SELECT ?? , ?", "?", [true])` yields `SELECT ? , 'true'`. -/
theorem claim_C5_escape :
    (∀ (args : List String) (sql pre post : List Char) (i : Nat) (buf : List Char),
      splitFirst qmark sql = some (pre, qmark :: post) →
      debugLoop qmark args sql i buf
        = debugLoop qmark args post i (buf ++ pre ++ [qmark])) ∧
    debugRender qmark "SELECT ?? , ?".data ["true"]
      = .ok ("SELECT ? , ".data ++ quoteArg "true") := by
  constructor
  · intro args sql pre post i buf hsp
    exact debugLoop_escape args i buf hsp rfl
  · exact debugRender_spec (by decide)

/-- Witness for C5's escape step at a concrete input. -/
theorem claim_C5_witness :
    debugLoop qmark ["a"] "b??c".data 0 []
      = debugLoop qmark ["a"] "c".data 0 ([] ++ "b".data ++ [qmark]) :=
  claim_C5_escape.1 ["a"] "b??c".data "b".data "c".data 0 [] (by decide)

/-- C6 counterexample: with placeholder token `$` and text `$$`, the claim's
(the spec's) doubled-token escape rule says no non-escaped placeholder is
ever reached, so with one argument the scan should complete and fail with
`NotEnoughPlaceholders`; the code instead consumes one argument at the first
`$` and fails with `TooManyPlaceholders` at the second. -/
theorem claim_C6_counterexample :
    specEscapeCount '$' "$$".data = 0 ∧
    debugRender '$' "$$".data ["x"] = .tooMany "$".data 1 := by
  refine ⟨by decide, ?_⟩
  show debugLoop '$' ["x"] "$$".data 0 [] = .tooMany "$".data 1
  have hsp1 : splitFirst '$' "$$".data = some ([], ['$']) := by decide
  rw [@debugLoop_subst '$' ("$$".data) [] ['$'] ["x"] 0 [] hsp1 (by decide) (by decide)]
  have hsp2 : splitFirst '$' ['$'] = some ([], []) := by decide
  rw [@debugLoop_tooMany '$' ['$'] [] [] ["x"] 1 _ hsp2 (by decide) (by decide)]
  rfl

/-- C6 (amended): with "non-escaped" meaning an occurrence not starting the
literal `??` sequence, rendering fails with `TooManyPlaceholders` (carrying
the remaining text and the argument count) exactly when the scan consumes
more placeholders than there are arguments, and fails with
`NotEnoughPlaceholders` (carrying the post-scan remainder, which contains no
further placeholder occurrence, and the argument count) exactly when
arguments remain after the scan completes — the check runs strictly after
the scan, never interleaved with it. -/
theorem claim_C6_errors : ∀ (ph : Char) (sql : List Char) (args : List String),
    ((∃ r, debugRender ph sql args = .tooMany r args.length) ↔
      args.length < consumeCount ph sql) ∧
    ((∃ r, debugRender ph sql args = .notEnough r args.length) ↔
      consumeCount ph sql < args.length) ∧
    (∀ r m, debugRender ph sql args = .notEnough r m →
      m = args.length ∧ splitFirst ph r = none) :=
  debugRender_count

/-- Witness for C6 at a concrete input. -/
theorem claim_C6_witness :
    (1 = (["x"] : List String).length) ∧ splitFirst qmark "a".data = none :=
  (claim_C6_errors qmark "a".data ["x"]).2.2 "a".data 1 debugRender_notEnough_example

/-- C7 counterexample: the single-value cast `castArgToYQL` has no
`types.Value` case, so an already-typed value falls through to the default
arm and is rejected as unsupported — it is not returned unchanged; only the
list cast passes it through. -/
theorem claim_C7_counterexample :
    castArgToYQL (Arg.value (YValue.boolValue true))
        = .err (.unsupportedType "types.Value") ∧
    castArgsToYQL [Arg.value (YValue.boolValue true)]
        = .ok [Arg.value (YValue.boolValue true)] := by
  decide

/-- C7 (amended): the pass-through short-circuit lives in the list cast
`castArgsToYQL`, whose `types.Value` arm appends the argument unchanged
before any dispatch, so a list of already-typed values is returned as-is (an
idempotent no-op, never re-wrapped); the single-value cast `castArgToYQL`,
which the list cast only ever calls on non-`types.Value` arguments, rejects
an already-typed value as unsupported. -/
theorem claim_C7_passthrough :
    (∀ vs : List YValue, castArgsToYQL (vs.map Arg.value) = .ok (vs.map Arg.value)) ∧
    (∀ v : YValue, castArgToYQL (.value v) = .err (.unsupportedType "types.Value")) := by
  constructor
  · intro vs
    cases vs with
    | nil => rfl
    | cons v rest =>
      rw [castArgsToYQL, if_neg (by simp)]
      exact castArgsLoop_values (v :: rest)
  · intro v
    rfl

/-- C8: `prepareYQLString` returns, on success, one
`DECLARE $p<N> AS <type>;` line followed by a line break per argument, `N`
starting at 1 in argument order, followed by the original body text verbatim;
on the first argument that is not a `types.Value` it fails with the
not-a-typed-value error naming that argument's type, producing no partial
text. -/
theorem claim_C8_declared_query :
    (∀ (sql : String) (vs : List YValue),
      prepareYQLString sql (vs.map Arg.value) = .ok (declTextFrom 1 vs ++ sql)) ∧
    (∀ (sql : String) (pre : List YValue) (a : Arg) (post : List Arg),
      a.asValue = none →
      prepareYQLString sql (pre.map Arg.value ++ a :: post)
        = .err (.notTypedValue a.goType)) := by
  constructor
  · intro sql vs
    simp only [prepareYQLString, declareLoop_values vs 0]
  · intro sql pre a post ha
    simp only [prepareYQLString, declareLoop_firstBad pre a post 0 ha]

/-- Witness for C8's failure arm at a concrete input. -/
theorem claim_C8_witness :
    prepareYQLString "SELECT 1" (List.map Arg.value [] ++ Arg.boolArg true :: [])
      = .err (.notTypedValue "bool") :=
  claim_C8_declared_query.2 "SELECT 1" [] (Arg.boolArg true) [] (by decide)

/-- C9: casting a `json.RawMessage` yields a present JSON value whenever the
value is non-nil — including the empty-but-non-nil byte sequence — and
yields the nullable-JSON absent value exactly when the input is the typed
nil. -/
theorem claim_C9_json_raw : ∀ (bs : List Nat),
    castArgToYQL (Arg.jsonRaw (some bs)) = .ok [YValue.jsonValue bs] ∧
    castArgToYQL (Arg.jsonRaw none) = .ok [YValue.nullableJson none] ∧
    castArgToYQL (Arg.jsonRaw (some [])) = .ok [YValue.jsonValue []] ∧
    (∀ x : Option (List Nat),
      castArgToYQL (Arg.jsonRaw x) = .ok [YValue.nullableJson none] ↔ x = none) := by
  intro bs
  refine ⟨rfl, rfl, rfl, fun x => ⟨fun h => ?_, fun h => by subst h; rfl⟩⟩
  cases x with
  | none => rfl
  | some b => simp [castArgToYQL] at h

/-- C10: a `uint` maps to the single present 64-bit unsigned value (the Go
widening `uint64(t)` is value-preserving) and a non-nil `*uint` to the
nullable 64-bit unsigned kind, mirroring the `int`/`*int` mapping — which
includes mirroring the nil-pointer dereference panic of the `*int` case. -/
theorem claim_C10_uint_widening : ∀ (n m : Nat),
    castArgToYQL (Arg.uintArg n) = .ok [YValue.uint64Value n] ∧
    castArgToYQL (Arg.ptrUint (some m)) = .ok [YValue.nullableUint64 (some m)] ∧
    castArgToYQL (Arg.ptrUint none) = .nilDerefFault :=
  fun n m => ⟨rfl, rfl, rfl⟩

end Squirrel
